import Mathlib

/-!
# Report generation of `internal/coberturaxml/report.go`

A shallow embedding of `generate`, `write` and `Write`, with the properties of
the report they build and emit.

Conventions of the embedding.

* `time.Time` is an instant in nanoseconds (`Int`); `time.Duration` is a number
  of nanoseconds kept inside the signed 64-bit range the way `Time.Sub` does.
* `time.Since(t)` reads the clock; the reading is the explicit argument `now`.
* An `error` is the text its `Error()` method returns.
* `[]byte` and `string` are both `String`; appending is concatenation.
* `float32` fields hold rationals; the source only ever stores the literal `0`.
* `io.Writer` is a `Sink`: the bytes accepted so far and a rule that tells, for
  the next `Write`, whether it is accepted whole or cut short with an error.
* `xml.MarshalIndent` and `Time.Format(time.RFC3339)` belong to the standard
  library and are taken as arguments; for the round trip the XML text of the
  report is written out (`xmlMarshalIndent`) and read back (`parseReport`).
* `generate` is declared to return `CoberturaCoverage`, builds `cobcov`, and
  ends in `return suites`; the embedding returns what the return statement
  returns, the `JUnitTestSuites` value, and keeps the `cobcov` literal as a
  definition of its own.
-/

namespace Coberturaxml

/-! ## Standard library -/

/-- An instant, `time.Time`, in nanoseconds. -/
abbrev Time := Int

/-- A `time.Duration`, in nanoseconds. -/
abbrev Duration := Int

/-- An `error`, as the text of `Error()`. -/
abbrev GoError := String

/-- The largest `time.Duration`, `1<<63 - 1`. -/
def maxDuration : Duration := 2 ^ 63 - 1

/-- The smallest `time.Duration`, `-1 << 63`. -/
def minDuration : Duration := -(2 ^ 63)

/-- The method `Time.Sub`: the difference, held at the ends of the range. -/
def Time.Sub (t u : Time) : Duration :=
  if t - u > maxDuration then maxDuration
  else if t - u < minDuration then minDuration
  else t - u

/-- The call `time.Since(t)`, which is `time.Now().Sub(t)`, with the clock
reading `now` made explicit. -/
def timeSince (now t : Time) : Duration := Time.Sub now t

/-- The constant `xml.Header`. -/
def xmlHeader : String := "<?xml version=\"1.0\" encoding=\"UTF-8\"?>\n"

/-- An `io.Writer`. `content` is what it has accepted so far, `calls` the
arguments of the calls of `Write` so far. `policy` is asked at each `Write`
with the content and the bytes offered: `none` accepts them all,
`some (n, err)` accepts the first `n` and reports `err`. -/
structure Sink where
  content : String
  calls : List String
  policy : String → String → Option (Nat × GoError)

/-- The method `Write` of an `io.Writer`: the sink afterwards, the number of
bytes accepted, and the error. -/
def Sink.Write (out : Sink) (p : String) : Sink × Nat × Option GoError :=
  match out.policy out.content p with
  | none =>
    ({ out with content := out.content ++ p, calls := out.calls ++ [p] }, p.length, none)
  | some (n, err) =>
    ({ out with content := out.content ++ p.take n, calls := out.calls ++ [p] },
      min n p.length, some err)

/-- A sink with nothing in it that accepts every write. -/
def emptySink : Sink := { content := "", calls := [], policy := fun _ _ => none }

/-! ## The execution summary (`testjson`) -/

namespace testjson

/-- Modelled from the spec: the status of a test case; `testjson` is not in the
source. The spec names pass, fail and skip. -/
inductive Status where
  | pass
  | fail
  | skip
deriving DecidableEq, Repr

/-- Modelled from the spec: `testjson.TestCase`, a named test case with the name
of its package, its status and its timing. -/
structure TestCase where
  Package : String
  Test : String
  Status : Status
  Elapsed : Duration
deriving DecidableEq, Repr

/-- Modelled from the spec: `testjson.Package`, a set of named test cases and
an elapsed time. -/
structure Package where
  cases : List TestCase
  elapsed : Duration
deriving DecidableEq, Repr

/-- Modelled from the spec: the field `Total`, the number of tests of the
package. -/
def Package.Total (p : Package) : Nat := p.cases.length

/-- Modelled from the spec: the field `Failed`, the failed tests of the
package. -/
def Package.Failed (p : Package) : List TestCase :=
  p.cases.filter (fun tc => tc.Status = Status.fail)

/-- Modelled from the spec: `IsEmpty()`, true of a package with zero tests. -/
def Package.IsEmpty (p : Package) : Bool := p.Total == 0

/-- Modelled from the spec: `Elapsed()`, the elapsed time of the package. -/
def Package.Elapsed (p : Package) : Duration := p.elapsed

/-- Modelled from the spec: `testjson.Execution`, an ordered collection of
packages grouped by name (no name twice), a start time, and the errors. -/
structure Execution where
  started : Time
  packages : List (String × Package)
  errors : List String
  uniq : (packages.map Prod.fst).Nodup

/-- Modelled from the spec: `Started()`, the start time. -/
def Execution.Started (e : Execution) : Time := e.started

/-- Modelled from the spec: `Packages()`, the package names in order. -/
def Execution.Packages (e : Execution) : List String := e.packages.map Prod.fst

/-- Modelled from the spec: looking a name up among the entries; a name that is
not there gives the package without tests. -/
def lookupPackage (name : String) : List (String × Package) → Package
  | [] => { cases := [], elapsed := 0 }
  | (n, p) :: rest => if n = name then p else lookupPackage name rest

/-- Modelled from the spec: `Package(name)`, the package of that name. -/
def Execution.Package (e : Execution) (name : String) : testjson.Package :=
  lookupPackage name e.packages

/-- Modelled from the spec: `Total()`, the total test count of the summary. -/
def Execution.Total (e : Execution) : Nat :=
  (e.packages.map (fun np => np.2.Total)).sum

/-- Modelled from the spec: `Failed()`, the failed tests of the summary. -/
def Execution.Failed (e : Execution) : List TestCase :=
  (e.packages.map (fun np => np.2.Failed)).flatten

/-- Modelled from the spec: `Errors()`, the errors of the summary. -/
def Execution.Errors (e : Execution) : List String := e.errors

/-- Modelled from the spec: the names of all tests of the summary, package by
package. -/
def Execution.TestNames (e : Execution) : List String :=
  (e.packages.map (fun np => np.2.cases.map (fun tc => tc.Test))).flatten

end testjson

/-! ## The report document -/

/-- The type `Source` of the source. -/
structure Source where
  Filepath : String
deriving DecidableEq, Repr

/-- The type `CoberturaCoverage` of the source, without `XMLName`. -/
structure CoberturaCoverage where
  LineRate : Rat
  BranchRate : Rat
  LinesCovered : Int
  LinesValid : Int
  BranchesCovered : Int
  BranchesValid : Int
  Complexity : Rat
  Version : String
  Timestamp : Int
  Sources : List Source
deriving DecidableEq, Repr

/-- Modelled from the spec: a property of a suite; the type is not in the
source. -/
structure JUnitProperty where
  Name : String
  Value : String
deriving DecidableEq, Repr

/-- Modelled from the spec: a test-case entry, the projection of one test case;
the type is not in the source. -/
structure JUnitTestCase where
  Classname : String
  Name : String
  Time : String
  Status : testjson.Status
deriving DecidableEq, Repr

/-- The type `JUnitTestSuite`. The source uses it without declaring it; the
fields are those of the literal `junitpkg` in `generate`. -/
structure JUnitTestSuite where
  Name : String
  Tests : Nat
  Failures : Nat
  Time : String
  Properties : List JUnitProperty
  TestCases : List JUnitTestCase
  Timestamp : String
deriving DecidableEq, Repr

/-- The type `JUnitTestSuites`. The source uses it without declaring it; the
fields are those of the literal `suites` in `generate`, and `Suites`. -/
structure JUnitTestSuites where
  Name : String
  Tests : Nat
  Failures : Nat
  Errors : Nat
  Time : String
  Suites : List JUnitTestSuite
deriving DecidableEq, Repr

/-- The type `Config`. The source declares it without fields; the fields are
those that `generate` reads, the two formatting rules being functions that are
there (not nil). -/
structure Config where
  ProjectName : String
  customElapsed : String
  customTimestamp : String
  HideEmptyPackages : Bool
  FormatTestSuiteName : String → String
  FormatTestCaseClassname : String → String

/-- What `generate` uses and neither the source nor the spec defines: the
variable `version`, the function `packageProperties`, and the standard
library's `Time.Format(time.RFC3339)`. -/
structure Deps where
  version : String
  packageProperties : String → List JUnitProperty
  formatRFC3339 : Time → String

/-- Modelled from the spec: `formatDurationAsSeconds` is not in the source and
the spec only says that durations are formatted. Here: the seconds in decimal
with six fractional digits, cut at the microsecond. -/
def formatDurationAsSeconds (d : Duration) : String :=
  let us := d.natAbs / 1000
  (if d < 0 then "-" else "") ++ toString (us / 1000000) ++ "."
    ++ String.mk ((Nat.toDigits 10 (us % 1000000 + 1000000)).drop 1)

/-- Modelled from the spec: `packageTestCases` is not in the source; each test
case of the package gives one entry, field by field. -/
def packageTestCases (pkg : testjson.Package)
    (formatClassname : String → String) : List JUnitTestCase :=
  pkg.cases.map (fun tc =>
    { Classname := formatClassname tc.Package
      Name := tc.Test
      Time := formatDurationAsSeconds tc.Elapsed
      Status := tc.Status })

/-- The literal `cobcov` that `generate` builds first. -/
def cobcov : CoberturaCoverage :=
  { LineRate := 0
    BranchRate := 0
    LinesCovered := 0
    LinesValid := 0
    BranchesCovered := 0
    BranchesValid := 0
    Complexity := 0
    Version := ""
    Timestamp := 0
    Sources := [] }

/-- The suite `junitpkg` that the loop of `generate` builds for one package
name, the timestamp included. -/
def junitpkg (deps : Deps) (exec : testjson.Execution) (cfg : Config)
    (pkgname : String) : JUnitTestSuite :=
  let pkg := exec.Package pkgname
  let junitpkg : JUnitTestSuite :=
    { Name := cfg.FormatTestSuiteName pkgname
      Tests := pkg.Total
      Time := formatDurationAsSeconds pkg.Elapsed
      Properties := deps.packageProperties deps.version
      TestCases := packageTestCases pkg cfg.FormatTestCaseClassname
      Failures := pkg.Failed.length
      Timestamp := cfg.customTimestamp }
  if cfg.customTimestamp = "" then
    { junitpkg with Timestamp := deps.formatRFC3339 exec.Started }
  else junitpkg

/-- One turn of the loop of `generate`. -/
def generateStep (deps : Deps) (exec : testjson.Execution) (cfg : Config)
    (suites : JUnitTestSuites) (pkgname : String) : JUnitTestSuites :=
  let pkg := exec.Package pkgname
  if cfg.HideEmptyPackages && pkg.IsEmpty then suites
  else { suites with Suites := suites.Suites ++ [junitpkg deps exec cfg pkgname] }

/-- The record `suites` before the loop of `generate`. -/
def generateInit (now : Time) (exec : testjson.Execution) (cfg : Config) :
    JUnitTestSuites :=
  let suites : JUnitTestSuites :=
    { Name := cfg.ProjectName
      Tests := exec.Total
      Failures := exec.Failed.length
      Errors := exec.Errors.length
      Time := formatDurationAsSeconds (timeSince now exec.Started)
      Suites := [] }
  if cfg.customElapsed ≠ "" then { suites with Time := cfg.customElapsed }
  else suites

/-- The function `generate`: the value of `suites` at `return suites`. -/
def generate (deps : Deps) (now : Time) (exec : testjson.Execution)
    (cfg : Config) : JUnitTestSuites :=
  exec.Packages.foldl (generateStep deps exec cfg) (generateInit now exec cfg)

/-- The function `write`. The document may be of any type, as the argument of
`xml.MarshalIndent` may. -/
def write {Doc : Type} (xmlMarshalIndent : Doc → String → String → Except GoError String)
    (out : Sink) (cobcov : Doc) : Sink × Option GoError :=
  match xmlMarshalIndent cobcov "" "\t" with
  | Except.error err => (out, some err)
  | Except.ok doc =>
    match out.Write xmlHeader with
    | (out1, _, some err) => (out1, some err)
    | (out1, _, none) =>
      match out1.Write doc with
      | (out2, _, err) => (out2, err)

/-- The text that `Write` puts in front of an error. -/
def writeContext : String := "failed to write JUnit XML: "

/-- The function `Write`. -/
def Write (xmlMarshalIndent : JUnitTestSuites → String → String → Except GoError String)
    (deps : Deps) (now : Time) (out : Sink) (exec : testjson.Execution)
    (cfg : Config) : Sink × Option GoError :=
  match write xmlMarshalIndent out (generate deps now exec cfg) with
  | (out1, some err) => (out1, some (writeContext ++ err))
  | (out1, none) => (out1, none)

/-- The package names that pass the test at the head of the loop of
`generate`; used to state which suites the report has. -/
def keptPackages (exec : testjson.Execution) (cfg : Config) : List String :=
  exec.Packages.filter (fun n => !(cfg.HideEmptyPackages && (exec.Package n).IsEmpty))

/-! ## Inputs used to evaluate the definitions -/

/-- A stand-in for what `generate` takes from outside. -/
def exampleDeps : Deps :=
  { version := "go1.21"
    packageProperties := fun v => [{ Name := "go.version", Value := v }]
    formatRFC3339 := fun t => if t = 0 then "1970-01-01T00:00:00Z" else "later" }

/-- A configuration without overrides that hides empty packages. -/
def exampleConfig : Config :=
  { ProjectName := "proj"
    customElapsed := ""
    customTimestamp := ""
    HideEmptyPackages := true
    FormatTestSuiteName := fun n => n
    FormatTestCaseClassname := fun n => n }

/-- A configuration with both overrides set. -/
def fixedConfig : Config :=
  { ProjectName := "proj"
    customElapsed := "2.5"
    customTimestamp := "2021-02-03T04:05:06Z"
    HideEmptyPackages := false
    FormatTestSuiteName := fun n => n
    FormatTestCaseClassname := fun n => n }

/-- A summary of two packages: one with a passed and a failed test, one
without tests. -/
def exampleExec : testjson.Execution :=
  { started := 0
    packages :=
      [("pkg/a",
        { cases :=
            [{ Package := "pkg/a", Test := "TestOne", Status := testjson.Status.pass,
               Elapsed := 1000000 },
             { Package := "pkg/a", Test := "TestTwo", Status := testjson.Status.fail,
               Elapsed := 2000000 }]
          elapsed := 3000000 }),
       ("pkg/b", { cases := [], elapsed := 0 })]
    errors := ["boom"]
    uniq := by decide }

/-- A summary without packages. -/
def emptyExec : testjson.Execution :=
  { started := 0, packages := [], errors := [], uniq := by decide }

/-- A summary with the one package `a`, without tests. -/
def execA : testjson.Execution :=
  { started := 0
    packages := [("a", { cases := [], elapsed := 0 })]
    errors := []
    uniq := by decide }

/-- A summary with the one package `b`, without tests. -/
def execB : testjson.Execution :=
  { started := 0
    packages := [("b", { cases := [], elapsed := 0 })]
    errors := []
    uniq := by decide }

/-- A configuration whose formatting rule gives every suite the same name. -/
def constConfig : Config :=
  { ProjectName := "proj"
    customElapsed := ""
    customTimestamp := ""
    HideEmptyPackages := false
    FormatTestSuiteName := fun _ => "suite"
    FormatTestCaseClassname := fun n => n }

/-- A sink that accepts nothing: every write fails at once. -/
def fullSink : Sink :=
  { content := "", calls := [], policy := fun _ _ => some (0, "no space left") }

/-- A sink that accepts the first write and fails three bytes into the next. -/
def shortSink : Sink :=
  { content := ""
    calls := []
    policy := fun c _ => if c = "" then none else some (3, "broken pipe") }

/-- An encoder that fails on every document. -/
def failingMarshal (_ : JUnitTestSuites) (_ _ : String) : Except GoError String :=
  Except.error "unsupported type"

/-- A stand-in encoder: the name and the counts of a document. -/
def exampleMarshal (d : JUnitTestSuites) (pre indent : String) :
    Except GoError String :=
  Except.ok (pre ++ "<testsuites name=\"" ++ d.Name ++ "\" tests=\"" ++ toString d.Tests
    ++ "\">\n" ++ indent ++ "</testsuites>")

/-- What a reader of the emitted XML gets out of it: the counts and the
names. -/
structure Parsed where
  Tests : Nat
  Failures : Nat
  Errors : Nat
  Packages : List String
  TestNames : List String
deriving DecidableEq, Repr

/-- The counts and names of a summary. -/
def summaryOf (exec : testjson.Execution) : Parsed :=
  { Tests := exec.Total
    Failures := exec.Failed.length
    Errors := exec.Errors.length
    Packages := exec.Packages
    TestNames := exec.TestNames }

/-- What `Write` leaves in a sink that was empty and accepts every write. -/
def emitted (xmlMarshalIndent : JUnitTestSuites → String → String → Except GoError String)
    (deps : Deps) (now : Time) (exec : testjson.Execution) (cfg : Config) : String :=
  (Write xmlMarshalIndent deps now emptySink exec cfg).1.content

/-- The round trip in the words of the spec, for an encoder and a parser:
parsing what `Write` emitted gives the counts and the names of the summary. -/
def RoundTrip (xmlMarshalIndent : JUnitTestSuites → String → String → Except GoError String)
    (parse : String → Option Parsed) : Prop :=
  ∀ (deps : Deps) (now : Time) (exec : testjson.Execution) (cfg : Config),
    parse (emitted xmlMarshalIndent deps now exec cfg) = some (summaryOf exec)

/-! ## The XML text of the report -/

/-- The characters of a string constant. -/
def lit (s : String) : List Char := s.toList

/-- The double quote that closes an attribute value. -/
def quote : Char := Char.ofNat 34

/-- The character U+FFFD that `xml.EscapeText` writes for a character it
cannot write. -/
def replacementChar : Char := Char.ofNat 0xFFFD

/-- The function `isInCharacterRange` of `encoding/xml`: the characters XML
allows. -/
def isInCharacterRange (c : Char) : Bool :=
  c.toNat == 0x09 || c.toNat == 0x0A || c.toNat == 0x0D
    || (0x20 ≤ c.toNat && c.toNat ≤ 0xD7FF)
    || (0xE000 ≤ c.toNat && c.toNat ≤ 0xFFFD)
    || (0x10000 ≤ c.toNat && c.toNat ≤ 0x10FFFF)

/-- What `xml.EscapeText` writes for one character of an attribute value. -/
def escapeChar (c : Char) : List Char :=
  if c = quote then lit "&#34;"
  else if c = Char.ofNat 39 then lit "&#39;"
  else if c = '&' then lit "&amp;"
  else if c = '<' then lit "&lt;"
  else if c = '>' then lit "&gt;"
  else if c = '\t' then lit "&#x9;"
  else if c = '\n' then lit "&#xA;"
  else if c = '\r' then lit "&#xD;"
  else if isInCharacterRange c then [c]
  else [replacementChar]

/-- The function `xml.EscapeText` on an attribute value. -/
def escapeText (s : String) : List Char := (s.toList.map escapeChar).flatten

/-- What is left of a character once written to XML: itself when XML allows
it, U+FFFD otherwise. -/
def xmlChar (c : Char) : Char := if isInCharacterRange c then c else replacementChar

/-- What is left of a string once written to XML. -/
def xmlText (s : String) : String := String.mk (s.toList.map xmlChar)

/-- A string of characters that XML allows. -/
def xmlSafe (s : String) : Bool := s.toList.all isInCharacterRange

/-- An attribute with a string value: `k` is the text up to the opening
quote. -/
def attr (k : String) (v : String) : List Char := lit k ++ escapeText v ++ [quote]

/-- An attribute with an `int` value, written as `strconv.Itoa` does. -/
def natAttr (k : String) (n : Nat) : List Char := lit k ++ Nat.toDigits 10 n ++ [quote]

/-- The line break and indentation that `xml.MarshalIndent` writes in front of
an element at the given depth. -/
def newline (pre indent : List Char) (depth : Nat) : List Char :=
  '\n' :: (pre ++ (List.replicate depth indent).flatten)

/-- Modelled from the spec: the element of a `JUnitProperty`. -/
def encodeProperty (p : JUnitProperty) : List Char :=
  lit "<property" ++ attr " name=\"" p.Name ++ attr " value=\"" p.Value
    ++ lit "></property>"

/-- Modelled from the spec: the child element of a test case that failed or was
skipped, on lines of its own. -/
def encodeStatus (pre indent : List Char) (depth : Nat) : testjson.Status → List Char
  | testjson.Status.pass => []
  | testjson.Status.skip =>
    newline pre indent (depth + 1) ++ lit "<skipped" ++ attr " message=\"" ""
      ++ lit "></skipped>" ++ newline pre indent depth
  | testjson.Status.fail =>
    newline pre indent (depth + 1) ++ lit "<failure" ++ attr " message=\"" "Failed"
      ++ attr " type=\"" "" ++ lit "></failure>" ++ newline pre indent depth

/-- Modelled from the spec: the element of a `JUnitTestCase` at a depth. -/
def encodeTestCase (pre indent : List Char) (depth : Nat) (c : JUnitTestCase) :
    List Char :=
  lit "<testcase" ++ attr " classname=\"" c.Classname ++ attr " name=\"" c.Name
    ++ attr " time=\"" c.Time ++ lit ">" ++ encodeStatus pre indent depth c.Status
    ++ lit "</testcase>"

/-- Modelled from the spec: the element of a `JUnitTestSuite` at a depth: the
attributes, the properties inside one `properties` element when there are any,
then the test cases. -/
def encodeSuite (pre indent : List Char) (depth : Nat) (s : JUnitTestSuite) :
    List Char :=
  lit "<testsuite" ++ natAttr " tests=\"" s.Tests ++ natAttr " failures=\"" s.Failures
    ++ attr " time=\"" s.Time ++ attr " name=\"" s.Name
    ++ attr " timestamp=\"" s.Timestamp ++ lit ">"
    ++ (if s.Properties = [] then []
        else newline pre indent (depth + 1) ++ lit "<properties>"
          ++ (s.Properties.map
                (fun p => newline pre indent (depth + 2) ++ encodeProperty p)).flatten
          ++ newline pre indent (depth + 1) ++ lit "</properties>")
    ++ (s.TestCases.map
          (fun c => newline pre indent (depth + 1)
            ++ encodeTestCase pre indent (depth + 1) c)).flatten
    ++ (if s.Properties = [] ∧ s.TestCases = [] then [] else newline pre indent depth)
    ++ lit "</testsuite>"

/-- Modelled from the spec: the element of a `JUnitTestSuites`; the name is
left out when it is empty. -/
def encodeSuites (pre indent : List Char) (d : JUnitTestSuites) : List Char :=
  pre ++ lit "<testsuites" ++ (if d.Name = "" then [] else attr " name=\"" d.Name)
    ++ natAttr " tests=\"" d.Tests ++ natAttr " failures=\"" d.Failures
    ++ natAttr " errors=\"" d.Errors ++ attr " time=\"" d.Time ++ lit ">"
    ++ (d.Suites.map (fun s => newline pre indent 1 ++ encodeSuite pre indent 1 s)).flatten
    ++ (if d.Suites = [] then [] else newline pre indent 0)
    ++ lit "</testsuites>"

/-- Modelled from the spec: `xml.MarshalIndent` on the report: elements named
after the JUnit records, their fields as attributes, values escaped as
`xml.EscapeText` does, each element on a line of its own. The JUnit types and
their tags are not in the source. -/
def xmlMarshalIndent (d : JUnitTestSuites) (pre indent : String) :
    Except GoError String :=
  Except.ok (String.mk (encodeSuites pre.toList indent.toList d))

/-! ## Reading the XML text back -/

/-- White space between elements. -/
def isWs (c : Char) : Bool := c = ' ' || c = '\n' || c = '\t' || c = '\r'

/-- The input without its leading white space. -/
def skipWs (cs : List Char) : List Char := cs.dropWhile isWs

/-- The input after the text `p`, when it starts with `p`. -/
def expect (p cs : List Char) : Option (List Char) :=
  if p.isPrefixOf cs then some (cs.drop p.length) else none

/-- The input up to the next double quote, and what follows the quote. -/
def untilQuote : List Char → Option (List Char × List Char)
  | [] => none
  | c :: cs =>
    if c = quote then some ([], cs)
    else (untilQuote cs).map (fun r => (c :: r.1, r.2))

/-- The character an entity stands for, from the text between `&` and `;`. -/
def decodeEntity (e : List Char) : Option Char :=
  if e = lit "#34" then some quote
  else if e = lit "#39" then some (Char.ofNat 39)
  else if e = lit "amp" then some '&'
  else if e = lit "lt" then some '<'
  else if e = lit "gt" then some '>'
  else if e = lit "#x9" then some '\t'
  else if e = lit "#xA" then some '\n'
  else if e = lit "#xD" then some '\r'
  else none

/-- An attribute value with its entities replaced. The first argument is the
entity being read, if any. -/
def unescape : Option (List Char) → List Char → Option (List Char)
  | none, [] => some []
  | some _, [] => none
  | none, c :: cs =>
    if c = '&' then unescape (some []) cs
    else (unescape none cs).map (fun r => c :: r)
  | some e, c :: cs =>
    if c = ';' then
      match decodeEntity e with
      | some ch => (unescape none cs).map (fun r => ch :: r)
      | none => none
    else unescape (some (e ++ [c])) cs

/-- The number written in decimal digits. -/
def parseDigits (l : List Char) : Option Nat :=
  if l ≠ [] ∧ l.all Char.isDigit = true then
    some (l.foldl (fun a c => 10 * a + (c.toNat - 48)) 0)
  else none

/-- Reads the attribute that starts with `k`: its value and the input after
the closing quote. -/
def readAttr (k : String) (cs : List Char) : Option (String × List Char) :=
  match expect (lit k) cs with
  | none => none
  | some cs1 =>
    match untilQuote cs1 with
    | none => none
    | some (raw, rest) =>
      match unescape none raw with
      | none => none
      | some v => some (String.mk v, rest)

/-- Reads the attribute that starts with `k` and holds a number. -/
def readNatAttr (k : String) (cs : List Char) : Option (Nat × List Char) :=
  match expect (lit k) cs with
  | none => none
  | some cs1 =>
    match untilQuote cs1 with
    | none => none
    | some (raw, rest) =>
      match parseDigits raw with
      | none => none
      | some n => some (n, rest)

/-- Reads elements that start with `tag`, one after the other, as long as
there is one; gives what `item` read from each and the input that follows,
without its leading white space. -/
def readMany {α : Type} (tag : List Char) (item : List Char → Option (α × List Char)) :
    Nat → List Char → Option (List α × List Char)
  | 0, _ => none
  | fuel + 1, cs =>
    if tag.isPrefixOf (skipWs cs) then
      match item (skipWs cs) with
      | none => none
      | some (a, rest) =>
        match readMany tag item fuel rest with
        | none => none
        | some (as, rest2) => some (a :: as, rest2)
    else some ([], skipWs cs)

/-- Reads all the elements that start with `tag`. -/
def readAll {α : Type} (tag : List Char) (item : List Char → Option (α × List Char))
    (cs : List Char) : Option (List α × List Char) :=
  readMany tag item (cs.length + 1) cs

/-- Reads a `property` element. -/
def readProperty (cs : List Char) : Option (Unit × List Char) :=
  match expect (lit "<property") cs with
  | none => none
  | some cs1 =>
    match readAttr " name=\"" cs1 with
    | none => none
    | some (_, cs2) =>
      match readAttr " value=\"" cs2 with
      | none => none
      | some (_, cs3) => (expect (lit "></property>") cs3).map (fun r => ((), r))

/-- Reads the child element of a test case, if there is one. -/
def readStatus (cs : List Char) : Option (List Char) :=
  if (lit "<skipped").isPrefixOf cs then
    match expect (lit "<skipped") cs with
    | none => none
    | some cs1 =>
      match readAttr " message=\"" cs1 with
      | none => none
      | some (_, cs2) => expect (lit "></skipped>") cs2
  else if (lit "<failure").isPrefixOf cs then
    match expect (lit "<failure") cs with
    | none => none
    | some cs1 =>
      match readAttr " message=\"" cs1 with
      | none => none
      | some (_, cs2) =>
        match readAttr " type=\"" cs2 with
        | none => none
        | some (_, cs3) => expect (lit "></failure>") cs3
  else some cs

/-- Reads a `testcase` element: the name of the test. -/
def readTestCase (cs : List Char) : Option (String × List Char) :=
  match expect (lit "<testcase") cs with
  | none => none
  | some cs1 =>
    match readAttr " classname=\"" cs1 with
    | none => none
    | some (_, cs2) =>
      match readAttr " name=\"" cs2 with
      | none => none
      | some (name, cs3) =>
        match readAttr " time=\"" cs3 with
        | none => none
        | some (_, cs4) =>
          match expect (lit ">") cs4 with
          | none => none
          | some cs5 =>
            match readStatus (skipWs cs5) with
            | none => none
            | some cs6 => (expect (lit "</testcase>") (skipWs cs6)).map (fun r => (name, r))

/-- Reads the `properties` element of a suite, if there is one. -/
def readProperties (cs : List Char) : Option (List Char) :=
  if (lit "<properties>").isPrefixOf (skipWs cs) then
    match expect (lit "<properties>") (skipWs cs) with
    | none => none
    | some cs1 =>
      match readAll (lit "<property") readProperty cs1 with
      | none => none
      | some (_, cs2) => expect (lit "</properties>") cs2
  else some cs

/-- Reads a `testsuite` element: the name of the suite and the names of its
tests. -/
def readSuite (cs : List Char) : Option ((String × List String) × List Char) :=
  match expect (lit "<testsuite") cs with
  | none => none
  | some cs1 =>
    match readNatAttr " tests=\"" cs1 with
    | none => none
    | some (_, cs2) =>
      match readNatAttr " failures=\"" cs2 with
      | none => none
      | some (_, cs3) =>
        match readAttr " time=\"" cs3 with
        | none => none
        | some (_, cs4) =>
          match readAttr " name=\"" cs4 with
          | none => none
          | some (name, cs5) =>
            match readAttr " timestamp=\"" cs5 with
            | none => none
            | some (_, cs6) =>
              match expect (lit ">") cs6 with
              | none => none
              | some cs7 =>
                match readProperties cs7 with
                | none => none
                | some cs8 =>
                  match readAll (lit "<testcase") readTestCase cs8 with
                  | none => none
                  | some (tests, cs9) =>
                    (expect (lit "</testsuite>") cs9).map (fun r => ((name, tests), r))

/-- Skips the `name` attribute of the root element when it is there. -/
def readOptionalName (cs : List Char) : Option (List Char) :=
  if (lit " name=\"").isPrefixOf cs then (readAttr " name=\"" cs).map (fun r => r.2)
  else some cs

/-- Reads the `testsuites` element that follows the header: the counts, the
names of the suites and the names of the tests. -/
def readSuites (cs : List Char) : Option Parsed :=
  match expect (lit "<testsuites") (skipWs cs) with
  | none => none
  | some cs1 =>
    match readOptionalName cs1 with
    | none => none
    | some cs2 =>
      match readNatAttr " tests=\"" cs2 with
      | none => none
      | some (tests, cs3) =>
        match readNatAttr " failures=\"" cs3 with
        | none => none
        | some (failures, cs4) =>
          match readNatAttr " errors=\"" cs4 with
          | none => none
          | some (errors, cs5) =>
            match readAttr " time=\"" cs5 with
            | none => none
            | some (_, cs6) =>
              match expect (lit ">") cs6 with
              | none => none
              | some cs7 =>
                match readAll (lit "<testsuite") readSuite cs7 with
                | none => none
                | some (suites, cs8) =>
                  match expect (lit "</testsuites>") cs8 with
                  | some [] =>
                    some
                      { Tests := tests
                        Failures := failures
                        Errors := errors
                        Packages := suites.map (fun s => s.1)
                        TestNames := (suites.map (fun s => s.2)).flatten }
                  | _ => none

/-- Parses what `Write` emitted: the header, then the report. -/
def parseReport (s : String) : Option Parsed :=
  match expect (lit xmlHeader) s.toList with
  | none => none
  | some cs => readSuites cs


/-- A configuration that leaves names as they are and hides nothing. -/
def plainConfig : Config :=
  { ProjectName := "proj"
    customElapsed := ""
    customTimestamp := ""
    HideEmptyPackages := false
    FormatTestSuiteName := fun n => n
    FormatTestCaseClassname := fun n => n }

/-- A summary with one test whose name is the given character. -/
def execWithTest (c : Char) : testjson.Execution :=
  { started := 0
    packages :=
      [("p",
        { cases :=
            [{ Package := "p", Test := String.singleton c,
               Status := testjson.Status.pass, Elapsed := 0 }]
          elapsed := 0 })]
    errors := []
    uniq := by simp }

/-- The round trip in the words of the spec under one configuration. -/
def RoundTripUnder
    (xmlMarshalIndent : JUnitTestSuites → String → String → Except GoError String)
    (parse : String → Option Parsed) (cfg : Config) : Prop :=
  ∀ (deps : Deps) (now : Time) (exec : testjson.Execution),
    parse (emitted xmlMarshalIndent deps now exec cfg) = some (summaryOf exec)

/-! ## Lemmas on the loop of `generate` -/

theorem foldl_generateStep (deps : Deps) (exec : testjson.Execution) (cfg : Config)
    (l : List String) (s : JUnitTestSuites) :
    l.foldl (generateStep deps exec cfg) s =
      { s with
        Suites := s.Suites ++
          (l.filter (fun n => !(cfg.HideEmptyPackages && (exec.Package n).IsEmpty))).map
            (junitpkg deps exec cfg) } := by
  induction l generalizing s with
  | nil => simp
  | cons n l ih =>
    rw [List.foldl_cons, ih]
    by_cases h : (cfg.HideEmptyPackages && (exec.Package n).IsEmpty) = true
    · simp only [Bool.and_eq_true] at h
      simp [generateStep, List.filter_cons, h.1, h.2]
    · have h2 : (cfg.HideEmptyPackages && (exec.Package n).IsEmpty) = false := by
        simpa using h
      simp only [generateStep, List.filter_cons, h2]
      simp

theorem generate_eq (deps : Deps) (now : Time) (exec : testjson.Execution)
    (cfg : Config) :
    generate deps now exec cfg =
      { generateInit now exec cfg with
        Suites := (keptPackages exec cfg).map (junitpkg deps exec cfg) } := by
  unfold generate
  rw [foldl_generateStep]
  have h : (generateInit now exec cfg).Suites = [] := by
    unfold generateInit
    split <;> rfl
  simp [h, keptPackages]

theorem generate_Suites (deps : Deps) (now : Time) (exec : testjson.Execution)
    (cfg : Config) :
    (generate deps now exec cfg).Suites =
      (keptPackages exec cfg).map (junitpkg deps exec cfg) := by
  rw [generate_eq]

theorem generateInit_Tests (now : Time) (exec : testjson.Execution) (cfg : Config) :
    (generateInit now exec cfg).Tests = exec.Total := by
  unfold generateInit
  split <;> rfl

theorem generateInit_Failures (now : Time) (exec : testjson.Execution) (cfg : Config) :
    (generateInit now exec cfg).Failures = exec.Failed.length := by
  unfold generateInit
  split <;> rfl

theorem generateInit_Errors (now : Time) (exec : testjson.Execution) (cfg : Config) :
    (generateInit now exec cfg).Errors = exec.Errors.length := by
  unfold generateInit
  split <;> rfl

theorem junitpkg_TestCases (deps : Deps) (exec : testjson.Execution) (cfg : Config)
    (n : String) :
    (junitpkg deps exec cfg n).TestCases =
      packageTestCases (exec.Package n) cfg.FormatTestCaseClassname := by
  unfold junitpkg
  split <;> rfl

theorem junitpkg_Failures (deps : Deps) (exec : testjson.Execution) (cfg : Config)
    (n : String) :
    (junitpkg deps exec cfg n).Failures = (exec.Package n).Failed.length := by
  unfold junitpkg
  split <;> rfl

theorem junitpkg_Name (deps : Deps) (exec : testjson.Execution) (cfg : Config)
    (n : String) :
    (junitpkg deps exec cfg n).Name = cfg.FormatTestSuiteName n := by
  unfold junitpkg
  split <;> rfl

theorem junitpkg_Tests (deps : Deps) (exec : testjson.Execution) (cfg : Config)
    (n : String) :
    (junitpkg deps exec cfg n).Tests = (exec.Package n).Total := by
  unfold junitpkg
  split <;> rfl

/-! ## Lemmas on the summary -/

theorem lookupPackage_of_not_mem (name : String) (l : List (String × testjson.Package))
    (h : name ∉ l.map Prod.fst) :
    testjson.lookupPackage name l = { cases := [], elapsed := 0 } := by
  induction l with
  | nil => rfl
  | cons np l ih =>
    obtain ⟨n, p⟩ := np
    simp only [List.map_cons, List.mem_cons, not_or] at h
    have hne : ¬ n = name := fun e => h.1 e.symm
    simp only [testjson.lookupPackage, hne, if_false]
    exact ih h.2

theorem map_lookupPackage (l : List (String × testjson.Package))
    (h : (l.map Prod.fst).Nodup) :
    (l.map Prod.fst).map (fun n => testjson.lookupPackage n l) = l.map Prod.snd := by
  induction l with
  | nil => rfl
  | cons np l ih =>
    obtain ⟨n, p⟩ := np
    simp only [List.map_cons, List.nodup_cons] at h
    simp only [List.map_cons, testjson.lookupPackage, if_true, List.cons.injEq, true_and]
    rw [← ih h.2]
    apply List.map_congr_left
    intro m hm
    have hne : ¬ n = m := fun e => h.1 (e ▸ hm)
    simp [hne]

theorem map_Package (exec : testjson.Execution) :
    exec.Packages.map exec.Package = exec.packages.map Prod.snd :=
  map_lookupPackage exec.packages exec.uniq

theorem sum_map_filter_of_zero {α : Type} (f : α → Nat) (p : α → Bool) (l : List α)
    (h : ∀ x, p x = false → f x = 0) :
    ((l.filter p).map f).sum = (l.map f).sum := by
  induction l with
  | nil => rfl
  | cons a l ih =>
    cases hp : p a with
    | true => simp [List.filter_cons, hp, ih]
    | false => simp [List.filter_cons, hp, ih, h a hp]

theorem packageTestCases_length (pkg : testjson.Package) (fmt : String → String) :
    (packageTestCases pkg fmt).length = pkg.Total := by
  simp [packageTestCases, testjson.Package.Total]

theorem sum_kept_Total (exec : testjson.Execution) (cfg : Config) :
    ((keptPackages exec cfg).map (fun n => (exec.Package n).Total)).sum = exec.Total := by
  unfold keptPackages
  rw [sum_map_filter_of_zero]
  · have h := congrArg (fun l => (l.map testjson.Package.Total).sum) (map_Package exec)
    simp only [List.map_map] at h
    simpa [testjson.Execution.Total, Function.comp_def] using h
  · intro n hn
    have hn2 : cfg.HideEmptyPackages = true ∧ (exec.Package n).IsEmpty = true := by
      simpa using hn
    simpa [testjson.Package.IsEmpty] using hn2.2

theorem keptPackages_sublist (exec : testjson.Execution) (cfg : Config) :
    (keptPackages exec cfg).Sublist exec.Packages :=
  List.filter_sublist _

/-! ## The report built by `generate` -/

/-- C1: the test-case entries of the report, summed over its suites, are as
many as `exec.Total()`, and the top-level tests count is `exec.Total()`. -/
theorem generate_test_case_count (deps : Deps) (now : Time)
    (exec : testjson.Execution) (cfg : Config) :
    ((generate deps now exec cfg).Suites.map (fun s => s.TestCases.length)).sum
        = exec.Total
      ∧ (generate deps now exec cfg).Tests = exec.Total := by
  constructor
  · rw [generate_Suites, List.map_map]
    have h : ((fun s : JUnitTestSuite => s.TestCases.length) ∘ junitpkg deps exec cfg)
        = fun n => (exec.Package n).Total := by
      funext n
      simp [junitpkg_TestCases, packageTestCases_length]
    rw [h, sum_kept_Total]
  · rw [generate_eq]
    exact generateInit_Tests now exec cfg

/-- C2: the top-level failure count is `len(exec.Failed())`, the top-level
error count is `len(exec.Errors())`, and the suites, taken in order with the
packages they were built from, each have the failure count `len(pkg.Failed)` of
their package. -/
theorem generate_failure_error_counts (deps : Deps) (now : Time)
    (exec : testjson.Execution) (cfg : Config) :
    (generate deps now exec cfg).Failures = exec.Failed.length
      ∧ (generate deps now exec cfg).Errors = exec.Errors.length
      ∧ (generate deps now exec cfg).Suites
          = (keptPackages exec cfg).map (junitpkg deps exec cfg)
      ∧ (generate deps now exec cfg).Suites.map (fun s => s.Failures)
          = (keptPackages exec cfg).map (fun n => (exec.Package n).Failed.length) := by
  refine ⟨?_, ?_, generate_Suites deps now exec cfg, ?_⟩
  · rw [generate_eq]
    exact generateInit_Failures now exec cfg
  · rw [generate_eq]
    exact generateInit_Errors now exec cfg
  · rw [generate_Suites, List.map_map]
    apply List.map_congr_left
    intro n _
    simp [junitpkg_Failures]

/-- C3: with `HideEmptyPackages` set, the suites of the report are built, in
order, from package names none of which names a package for which `IsEmpty()`
holds. -/
theorem generate_hides_empty_packages (deps : Deps) (now : Time)
    (exec : testjson.Execution) (cfg : Config) (h : cfg.HideEmptyPackages = true) :
    ∃ names : List String,
      names.Sublist exec.Packages
        ∧ (generate deps now exec cfg).Suites = names.map (junitpkg deps exec cfg)
        ∧ ∀ n ∈ names, (exec.Package n).IsEmpty = false := by
  refine ⟨keptPackages exec cfg, keptPackages_sublist exec cfg,
    generate_Suites deps now exec cfg, ?_⟩
  intro n hn
  unfold keptPackages at hn
  rw [List.mem_filter] at hn
  simpa [h] using hn.2

/-- Witness of C3 at `exampleExec` and `exampleConfig`. -/
theorem generate_hides_empty_packages_witness :
    exampleConfig.HideEmptyPackages = true
      ∧ ∃ names : List String,
          names.Sublist exampleExec.Packages
            ∧ (generate exampleDeps 7 exampleExec exampleConfig).Suites
                = names.map (junitpkg exampleDeps exampleExec exampleConfig)
            ∧ ∀ n ∈ names, (exampleExec.Package n).IsEmpty = false :=
  ⟨rfl, generate_hides_empty_packages exampleDeps 7 exampleExec exampleConfig rfl⟩

/-- C4: every suite of the report has the timestamp `cfg.customTimestamp` when
that is not empty, and `exec.Started()` formatted as RFC 3339 when it is. -/
theorem generate_suite_timestamp (deps : Deps) (now : Time)
    (exec : testjson.Execution) (cfg : Config) (s : JUnitTestSuite)
    (hs : s ∈ (generate deps now exec cfg).Suites) :
    (cfg.customTimestamp ≠ "" → s.Timestamp = cfg.customTimestamp)
      ∧ (cfg.customTimestamp = "" → s.Timestamp = deps.formatRFC3339 exec.Started) := by
  rw [generate_Suites, List.mem_map] at hs
  obtain ⟨n, _, rfl⟩ := hs
  constructor
  · intro hne
    simp [junitpkg, hne]
  · intro he
    simp [junitpkg, he]

/-- Witness of C4: with the override of `fixedConfig`, the suite of `pkg/a` is
in the report and carries the override. -/
theorem generate_suite_timestamp_witness :
    junitpkg exampleDeps exampleExec fixedConfig "pkg/a"
        ∈ (generate exampleDeps 7 exampleExec fixedConfig).Suites
      ∧ (junitpkg exampleDeps exampleExec fixedConfig "pkg/a").Timestamp
          = "2021-02-03T04:05:06Z" :=
  ⟨by decide,
   (generate_suite_timestamp exampleDeps 7 exampleExec fixedConfig
      (junitpkg exampleDeps exampleExec fixedConfig "pkg/a") (by decide)).1 (by decide)⟩

/-- C10: the suites of the report are built from the names of
`exec.Packages()` that pass the filter, in the same order and none twice; with
the filter off there are as many suites as packages, and with it on every
package that is not empty has its suite. -/
theorem generate_suites_follow_packages (deps : Deps) (now : Time)
    (exec : testjson.Execution) (cfg : Config) :
    (generate deps now exec cfg).Suites
        = (exec.Packages.filter
            (fun n => !(cfg.HideEmptyPackages && (exec.Package n).IsEmpty))).map
            (junitpkg deps exec cfg)
      ∧ (keptPackages exec cfg).Sublist exec.Packages
      ∧ (keptPackages exec cfg).Nodup
      ∧ (cfg.HideEmptyPackages = false →
          keptPackages exec cfg = exec.Packages
            ∧ (generate deps now exec cfg).Suites.length = exec.Packages.length)
      ∧ (cfg.HideEmptyPackages = true →
          ∀ n ∈ exec.Packages, (exec.Package n).IsEmpty = false →
            n ∈ keptPackages exec cfg
              ∧ junitpkg deps exec cfg n ∈ (generate deps now exec cfg).Suites) := by
  refine ⟨generate_Suites deps now exec cfg, keptPackages_sublist exec cfg,
    (keptPackages_sublist exec cfg).nodup exec.uniq, ?_, ?_⟩
  · intro h
    have hk : keptPackages exec cfg = exec.Packages := by
      simp [keptPackages, h]
    refine ⟨hk, ?_⟩
    rw [generate_Suites, hk, List.length_map]
  · intro h n hn he
    have hk : n ∈ keptPackages exec cfg := by
      unfold keptPackages
      rw [List.mem_filter]
      exact ⟨hn, by simp [h, he]⟩
    refine ⟨hk, ?_⟩
    rw [generate_Suites]
    exact List.mem_map_of_mem _ hk

/-- Witness of C10: with the filter on, `pkg/a` of `exampleExec` is kept. -/
theorem generate_suites_follow_packages_witness :
    exampleConfig.HideEmptyPackages = true
      ∧ "pkg/a" ∈ exampleExec.Packages
      ∧ "pkg/a" ∈ keptPackages exampleExec exampleConfig
      ∧ junitpkg exampleDeps exampleExec exampleConfig "pkg/a"
          ∈ (generate exampleDeps 7 exampleExec exampleConfig).Suites :=
  ⟨rfl, by decide,
   (generate_suites_follow_packages exampleDeps 7 exampleExec exampleConfig).2.2.2.2
      rfl "pkg/a" (by decide) (by decide)⟩

/-! ## Serialising: `write` and `Write` -/

/-- C5: `Write` returns an error exactly when the encoding fails, or the write
of the header fails, or the header is written and the write of the document
fails; the error is then the failing step's error behind the context text; and
when nothing fails `Write` returns nil. -/
theorem Write_error_iff
    (marshal : JUnitTestSuites → String → String → Except GoError String)
    (deps : Deps) (now : Time) (out : Sink) (exec : testjson.Execution) (cfg : Config) :
    ((Write marshal deps now out exec cfg).2 ≠ none ↔
        (∃ e, marshal (generate deps now exec cfg) "" "\t" = Except.error e)
          ∨ (∃ b, marshal (generate deps now exec cfg) "" "\t" = Except.ok b
              ∧ ((out.Write xmlHeader).2.2 ≠ none
                  ∨ ((out.Write xmlHeader).2.2 = none
                      ∧ ((out.Write xmlHeader).1.Write b).2.2 ≠ none))))
      ∧ (∀ e, marshal (generate deps now exec cfg) "" "\t" = Except.error e →
          Write marshal deps now out exec cfg = (out, some (writeContext ++ e)))
      ∧ (∀ b e, marshal (generate deps now exec cfg) "" "\t" = Except.ok b →
          (out.Write xmlHeader).2.2 = some e →
          Write marshal deps now out exec cfg
            = ((out.Write xmlHeader).1, some (writeContext ++ e)))
      ∧ (∀ b e, marshal (generate deps now exec cfg) "" "\t" = Except.ok b →
          (out.Write xmlHeader).2.2 = none →
          ((out.Write xmlHeader).1.Write b).2.2 = some e →
          Write marshal deps now out exec cfg
            = (((out.Write xmlHeader).1.Write b).1, some (writeContext ++ e)))
      ∧ (∀ b, marshal (generate deps now exec cfg) "" "\t" = Except.ok b →
          (out.Write xmlHeader).2.2 = none →
          ((out.Write xmlHeader).1.Write b).2.2 = none →
          Write marshal deps now out exec cfg
            = (((out.Write xmlHeader).1.Write b).1, none)) := by
  unfold Write write
  cases hm : marshal (generate deps now exec cfg) "" "\t" with
  | error e => simp
  | ok b =>
    rcases hw : out.Write xmlHeader with ⟨o1, n1, e1⟩
    cases e1 with
    | some e => simp
    | none =>
      rcases hw2 : o1.Write b with ⟨o2, n2, e2⟩
      cases e2 with
      | none =>
        simp [hw2]
        rintro b1 e rfl
        simp [hw2]
      | some e2 =>
        simp [hw2]
        rintro b1 e rfl
        simp only [hw2]
        rintro ⟨⟩
        simp

/-- Witness of C5: a failing encoder, a sink that fails on the header, a sink
that fails on the document, and a run without failure. -/
theorem Write_error_iff_witness :
    Write failingMarshal exampleDeps 7 emptySink exampleExec exampleConfig
        = (emptySink, some "failed to write JUnit XML: unsupported type")
      ∧ (Write exampleMarshal exampleDeps 7 fullSink exampleExec exampleConfig).2
          = some "failed to write JUnit XML: no space left"
      ∧ (Write exampleMarshal exampleDeps 7 shortSink exampleExec exampleConfig).2
          = some "failed to write JUnit XML: broken pipe"
      ∧ (Write exampleMarshal exampleDeps 7 emptySink exampleExec exampleConfig).2
          = none :=
  ⟨(Write_error_iff failingMarshal exampleDeps 7 emptySink exampleExec exampleConfig).2.1
      "unsupported type" rfl,
   congrArg Prod.snd
    ((Write_error_iff exampleMarshal exampleDeps 7 fullSink exampleExec exampleConfig).2.2.1
      _ "no space left" rfl rfl),
   congrArg Prod.snd
    ((Write_error_iff exampleMarshal exampleDeps 7 shortSink exampleExec exampleConfig).2.2.2.1
      _ "broken pipe" rfl rfl (by decide)),
   congrArg Prod.snd
    ((Write_error_iff exampleMarshal exampleDeps 7 emptySink exampleExec exampleConfig).2.2.2.2
      _ rfl rfl rfl)⟩

/-- C6: when the encoding of the document with the tab as indent is `b` and the
sink accepts the two writes, `write` returns nil and has made exactly two
writes, of `xml.Header` and then of `b`; the sink holds what it held followed
by `xml.Header` and `b`, which is `xml.Header ++ b` for a sink that was
empty. -/
theorem write_emits_header_then_document {Doc : Type}
    (marshal : Doc → String → String → Except GoError String)
    (out : Sink) (d : Doc) (b : String)
    (hm : marshal d "" "\t" = Except.ok b)
    (h1 : out.policy out.content xmlHeader = none)
    (h2 : out.policy (out.content ++ xmlHeader) b = none) :
    write marshal out d
        = ({ out with
              content := out.content ++ xmlHeader ++ b
              calls := out.calls ++ [xmlHeader, b] }, none)
      ∧ (out.content = "" → (write marshal out d).1.content = xmlHeader ++ b) := by
  have h : write marshal out d
      = ({ out with
            content := out.content ++ xmlHeader ++ b
            calls := out.calls ++ [xmlHeader, b] }, none) := by
    simp [write, hm, Sink.Write, h1, h2]
  refine ⟨h, ?_⟩
  intro h0
  rw [h, h0]
  simp

/-- Witness of C6 at the empty sink and the report of `exampleExec`. -/
theorem write_emits_header_then_document_witness :
    (write exampleMarshal emptySink
        (generate exampleDeps 7 exampleExec exampleConfig)).1.content
      = xmlHeader ++ "<testsuites name=\"proj\" tests=\"2\">\n\t</testsuites>" :=
  (write_emits_header_then_document exampleMarshal emptySink
      (generate exampleDeps 7 exampleExec exampleConfig)
      "<testsuites name=\"proj\" tests=\"2\">\n\t</testsuites>"
      rfl rfl rfl).2 rfl

/-! ## What the report depends on -/

theorem generateInit_clock (now₁ now₂ : Time) (exec : testjson.Execution) (cfg : Config) :
    { generateInit now₁ exec cfg with Time := "" }
      = { generateInit now₂ exec cfg with Time := "" } := by
  unfold generateInit
  split <;> rfl

/-- C7, as stated, fails: on the same summary and configuration, a call of
`generate` one second after another gives another report. -/
theorem generate_depends_on_clock :
    (generate exampleDeps 0 exampleExec exampleConfig).Time = "0.000000"
      ∧ (generate exampleDeps 1000000000 exampleExec exampleConfig).Time = "1.000000"
      ∧ generate exampleDeps 0 exampleExec exampleConfig
          ≠ generate exampleDeps 1000000000 exampleExec exampleConfig := by
  decide

/-- C7, amended: two calls of `generate` on the same summary and configuration
give reports that agree in everything but the top-level `Time`; they agree in
`Time` too when `cfg.customElapsed` is not empty, and when the time elapsed
since `exec.Started()` is the same at both calls. -/
theorem generate_clock_only_in_Time (deps : Deps) (now₁ now₂ : Time)
    (exec : testjson.Execution) (cfg : Config) :
    { generate deps now₁ exec cfg with Time := "" }
        = { generate deps now₂ exec cfg with Time := "" }
      ∧ (cfg.customElapsed ≠ "" →
          generate deps now₁ exec cfg = generate deps now₂ exec cfg)
      ∧ (timeSince now₁ exec.Started = timeSince now₂ exec.Started →
          generate deps now₁ exec cfg = generate deps now₂ exec cfg) := by
  refine ⟨?_, ?_, ?_⟩
  · have h := generateInit_clock now₁ now₂ exec cfg
    rw [generate_eq, generate_eq]
    simp only [JUnitTestSuites.mk.injEq] at h ⊢
    exact ⟨h.1, h.2.1, h.2.2.1, h.2.2.2.1, trivial, trivial⟩
  · intro hne
    rw [generate_eq, generate_eq]
    simp [generateInit, hne]
  · intro ht
    rw [generate_eq, generate_eq]
    simp [generateInit, ht]

/-- Witness of C7, amended: with the elapsed time fixed in `fixedConfig`, calls
a second apart give the same report. -/
theorem generate_clock_only_in_Time_witness :
    fixedConfig.customElapsed ≠ ""
      ∧ generate exampleDeps 0 exampleExec fixedConfig
          = generate exampleDeps 1000000000 exampleExec fixedConfig :=
  ⟨by decide,
   (generate_clock_only_in_Time exampleDeps 0 1000000000 exampleExec fixedConfig).2.1
      (by decide)⟩

/-! ## The round trip -/

theorem flatten_map_filter_of_nil {α β : Type} (f : α → List β) (p : α → Bool)
    (l : List α) (h : ∀ x, p x = false → f x = []) :
    ((l.filter p).map f).flatten = (l.map f).flatten := by
  induction l with
  | nil => rfl
  | cons a l ih =>
    cases hp : p a with
    | true => simp [List.filter_cons, hp, ih]
    | false => simp [List.filter_cons, hp, ih, h a hp]

theorem generate_testNames (deps : Deps) (now : Time) (exec : testjson.Execution)
    (cfg : Config) :
    ((generate deps now exec cfg).Suites.map
        (fun s => s.TestCases.map (fun c => c.Name))).flatten = exec.TestNames := by
  rw [generate_Suites, List.map_map]
  have h : ((fun s : JUnitTestSuite => s.TestCases.map (fun c => c.Name))
        ∘ junitpkg deps exec cfg)
      = fun n => (exec.Package n).cases.map (fun tc => tc.Test) := by
    funext n
    simp [junitpkg_TestCases, packageTestCases, Function.comp_def]
  rw [h]
  unfold keptPackages
  rw [flatten_map_filter_of_nil]
  · have h2 := congrArg
      (fun l => (l.map (fun p : testjson.Package => p.cases.map (fun tc => tc.Test))).flatten)
      (map_Package exec)
    simp only [List.map_map] at h2
    simpa [testjson.Execution.TestNames, Function.comp_def] using h2
  · intro n hn
    have hn2 : cfg.HideEmptyPackages = true ∧ (exec.Package n).IsEmpty = true := by
      simpa using hn
    have h0 : (exec.Package n).cases = [] := by
      simpa [testjson.Package.IsEmpty, testjson.Package.Total] using hn2.2
    simp [h0]

theorem emitted_eq
    (marshal : JUnitTestSuites → String → String → Except GoError String)
    (deps : Deps) (now : Time) (exec : testjson.Execution) (cfg : Config) (b : String)
    (hm : marshal (generate deps now exec cfg) "" "\t" = Except.ok b) :
    emitted marshal deps now exec cfg = xmlHeader ++ b := by
  simp [emitted, Write, write, hm, Sink.Write, emptySink]

/-! ## Lemmas on reading the XML text back -/

theorem expect_append (p r : List Char) : expect p (p ++ r) = some r := by
  have h : p.isPrefixOf (p ++ r) = true :=
    List.isPrefixOf_iff_prefix.mpr (List.prefix_append p r)
  simp [expect, h]

theorem untilQuote_append (l r : List Char) (h : quote ∉ l) :
    untilQuote (l ++ quote :: r) = some (l, r) := by
  induction l with
  | nil => simp [untilQuote]
  | cons c l ih =>
    simp only [List.mem_cons, not_or] at h
    have hc : ¬ c = quote := fun e => h.1 e.symm
    simp [untilQuote, hc, ih h.2]

theorem quote_not_mem_escapeChar (c : Char) : quote ∉ escapeChar c := by
  unfold escapeChar
  split_ifs with h1 h2 h3 h4 h5 h6 h7 h8 h9
  · decide
  · decide
  · decide
  · decide
  · decide
  · decide
  · decide
  · decide
  · simpa using fun e => h1 e.symm
  · decide

theorem quote_not_mem_escapeText (s : String) : quote ∉ escapeText s := by
  unfold escapeText
  simp only [List.mem_flatten, List.mem_map, not_exists, not_and]
  rintro l ⟨c, _, rfl⟩
  exact quote_not_mem_escapeChar c

theorem unescape_escapeChar (c : Char) (rest : List Char) :
    unescape none (escapeChar c ++ rest)
      = (unescape none rest).map (fun r => xmlChar c :: r) := by
  unfold escapeChar
  split_ifs with h1 h2 h3 h4 h5 h6 h7 h8 h9
  · subst h1; rfl
  · subst h2; rfl
  · subst h3; rfl
  · subst h4; rfl
  · subst h5; rfl
  · subst h6; rfl
  · subst h7; rfl
  · subst h8; rfl
  · simp [unescape, h3, xmlChar, h9]
  · have hr : ¬ replacementChar = '&' := by decide
    simp [unescape, hr, xmlChar, h9]

theorem unescape_escapeText (s : String) :
    unescape none (escapeText s) = some (s.toList.map xmlChar) := by
  unfold escapeText
  induction s.toList with
  | nil => rfl
  | cons c l ih =>
    simp only [List.map_cons, List.flatten_cons]
    rw [unescape_escapeChar, ih]
    rfl

theorem readAttr_attr (k v : String) (r : List Char) :
    readAttr k (attr k v ++ r) = some (xmlText v, r) := by
  unfold readAttr attr
  simp only [List.append_assoc, List.singleton_append]
  rw [expect_append]
  simp only []
  rw [untilQuote_append _ _ (quote_not_mem_escapeText v)]
  simp only []
  rw [unescape_escapeText]
  rfl


theorem digitChar_isDigit (m : Nat) (h : m < 10) :
    (Nat.digitChar m).isDigit = true ∧ (Nat.digitChar m).toNat - 48 = m := by
  interval_cases m <;> decide

theorem toDigitsCore_spec (fuel : Nat) :
    ∀ (n : Nat) (ds : List Char), n < fuel →
      ∃ xs : List Char, Nat.toDigitsCore 10 fuel n ds = xs ++ ds ∧ xs ≠ []
        ∧ (∀ c ∈ xs, c.isDigit = true)
        ∧ xs.foldl (fun a c => 10 * a + (c.toNat - 48)) 0 = n := by
  induction fuel with
  | zero => intro n ds h; omega
  | succ fuel ih =>
    intro n ds h
    have hd := digitChar_isDigit (n % 10) (Nat.mod_lt n (by decide))
    by_cases h0 : n / 10 = 0
    · refine ⟨[Nat.digitChar (n % 10)], ?_, by simp, ?_, ?_⟩
      · simp [Nat.toDigitsCore, h0]
      · intro c hc
        simp only [List.mem_singleton] at hc
        rw [hc]
        exact hd.1
      · simp only [List.foldl_cons, List.foldl_nil, hd.2]
        omega
    · have hlt : n / 10 < fuel := by omega
      obtain ⟨xs, h1, _, h3, h4⟩ := ih (n / 10) (Nat.digitChar (n % 10) :: ds) hlt
      refine ⟨xs ++ [Nat.digitChar (n % 10)], ?_, by simp, ?_, ?_⟩
      · simp [Nat.toDigitsCore, h0, h1]
      · intro c hc
        rw [List.mem_append, List.mem_singleton] at hc
        rcases hc with hc | hc
        · exact h3 c hc
        · rw [hc]
          exact hd.1
      · rw [List.foldl_append, h4]
        simp only [List.foldl_cons, List.foldl_nil, hd.2]
        omega

theorem toDigits_spec (n : Nat) :
    Nat.toDigits 10 n ≠ [] ∧ (∀ c ∈ Nat.toDigits 10 n, c.isDigit = true)
      ∧ (Nat.toDigits 10 n).foldl (fun a c => 10 * a + (c.toNat - 48)) 0 = n := by
  obtain ⟨xs, h1, h2, h3, h4⟩ := toDigitsCore_spec (n + 1) n [] (Nat.lt_succ_self n)
  have h : Nat.toDigits 10 n = xs := by
    simpa [Nat.toDigits] using h1
  rw [h]
  exact ⟨h2, h3, h4⟩

theorem parseDigits_toDigits (n : Nat) : parseDigits (Nat.toDigits 10 n) = some n := by
  obtain ⟨h1, h2, h3⟩ := toDigits_spec n
  have hall : (Nat.toDigits 10 n).all Char.isDigit = true := by
    rw [List.all_eq_true]
    exact h2
  simp [parseDigits, h1, hall, h3]

theorem quote_not_mem_toDigits (n : Nat) : quote ∉ Nat.toDigits 10 n := by
  intro h
  have hd := (toDigits_spec n).2.1 quote h
  revert hd
  decide

theorem readNatAttr_natAttr (k : String) (n : Nat) (r : List Char) :
    readNatAttr k (natAttr k n ++ r) = some (n, r) := by
  unfold readNatAttr natAttr
  simp only [List.append_assoc, List.singleton_append]
  rw [expect_append]
  simp only []
  rw [untilQuote_append _ _ (quote_not_mem_toDigits n)]
  simp only []
  rw [parseDigits_toDigits]

/-! White space. -/

theorem skipWs_append (ws x : List Char) (hws : ∀ c ∈ ws, isWs c = true) :
    skipWs (ws ++ x) = skipWs x := by
  induction ws with
  | nil => rfl
  | cons c ws ih =>
    have hc : isWs c = true := hws c (List.mem_cons_self c ws)
    have ht : ∀ d ∈ ws, isWs d = true := fun d hd => hws d (List.mem_cons_of_mem c hd)
    simp only [skipWs, List.cons_append, List.dropWhile_cons, hc, if_true]
    exact ih ht

theorem newline_ws (pre indent : List Char) (hpre : ∀ c ∈ pre, isWs c = true)
    (hind : ∀ c ∈ indent, isWs c = true) (depth : Nat) :
    ∀ c ∈ newline pre indent depth, isWs c = true := by
  intro c hc
  simp only [newline, List.mem_cons, List.mem_append, List.mem_flatten,
    List.mem_replicate] at hc
  rcases hc with hc | hc | ⟨l, ⟨_, rfl⟩, hc⟩
  · rw [hc]
    decide
  · exact hpre c hc
  · exact hind c hc

theorem length_le_length_flatten {β : Type} (f : β → List Char) (items : List β)
    (h : ∀ b, f b ≠ []) : items.length ≤ ((items.map f).flatten).length := by
  induction items with
  | nil => simp
  | cons b bs ih =>
    have hb : 0 < (f b).length := List.length_pos.mpr (h b)
    simp only [List.map_cons, List.flatten_cons, List.length_cons, List.length_append]
    omega

theorem readMany_spec {α β : Type} (tag : List Char)
    (item : List Char → Option (α × List Char)) (enc : β → List Char) (view : β → α)
    (ws : List Char) (hws : ∀ c ∈ ws, isWs c = true)
    (hitem : ∀ b r, item (enc b ++ r) = some (view b, r))
    (hskip : ∀ b r, skipWs (enc b ++ r) = enc b ++ r)
    (htag : ∀ b r, tag.isPrefixOf (enc b ++ r) = true)
    (tail rest : List Char) (ht1 : skipWs tail = rest)
    (ht2 : tag.isPrefixOf rest = false) :
    ∀ (items : List β) (fuel : Nat), items.length < fuel →
      readMany tag item fuel ((items.map (fun b => ws ++ enc b)).flatten ++ tail)
        = some (items.map view, rest) := by
  intro items
  induction items with
  | nil =>
    intro fuel hf
    obtain ⟨f, rfl⟩ : ∃ f, fuel = f + 1 := ⟨fuel - 1, by simp at hf; omega⟩
    simp [readMany, ht1, ht2]
  | cons b bs ih =>
    intro fuel hf
    obtain ⟨f, rfl⟩ : ∃ f, fuel = f + 1 := ⟨fuel - 1, by omega⟩
    have hf2 : bs.length < f := by
      simp only [List.length_cons] at hf
      omega
    simp only [List.map_cons, List.flatten_cons, List.append_assoc]
    unfold readMany
    rw [skipWs_append _ _ hws, hskip, htag]
    simp only [if_true]
    rw [hitem]
    simp only []
    rw [ih f hf2]

theorem readAll_spec {α β : Type} (tag : List Char)
    (item : List Char → Option (α × List Char)) (enc : β → List Char) (view : β → α)
    (ws : List Char) (hws : ∀ c ∈ ws, isWs c = true)
    (hitem : ∀ b r, item (enc b ++ r) = some (view b, r))
    (hskip : ∀ b r, skipWs (enc b ++ r) = enc b ++ r)
    (htag : ∀ b r, tag.isPrefixOf (enc b ++ r) = true)
    (henc : ∀ b, enc b ≠ [])
    (tail rest : List Char) (ht1 : skipWs tail = rest)
    (ht2 : tag.isPrefixOf rest = false) (items : List β) :
    readAll tag item ((items.map (fun b => ws ++ enc b)).flatten ++ tail)
      = some (items.map view, rest) := by
  unfold readAll
  apply readMany_spec tag item enc view ws hws hitem hskip htag tail rest ht1 ht2
  have h := length_le_length_flatten (fun b => ws ++ enc b) items
    (fun b => by simp [henc b])
  simp only [List.length_append]
  omega


/-! The elements. -/

theorem readProperty_encodeProperty (p : JUnitProperty) (r : List Char) :
    readProperty (encodeProperty p ++ r) = some ((), r) := by
  unfold readProperty encodeProperty
  simp only [List.append_assoc]
  rw [expect_append]
  simp only []
  rw [readAttr_attr]
  simp only []
  rw [readAttr_attr]
  simp only []
  rw [expect_append]
  rfl

theorem readStatus_encodeStatus (pre indent : List Char)
    (hpre : ∀ c ∈ pre, isWs c = true) (hind : ∀ c ∈ indent, isWs c = true)
    (depth : Nat) (st : testjson.Status) (r : List Char) :
    ∃ cs, readStatus (skipWs (encodeStatus pre indent depth st ++ lit "</testcase>" ++ r))
        = some cs ∧ skipWs cs = lit "</testcase>" ++ r := by
  cases st with
  | pass =>
    refine ⟨lit "</testcase>" ++ r, ?_, rfl⟩
    simp only [encodeStatus, List.nil_append]
    have h : skipWs (lit "</testcase>" ++ r) = lit "</testcase>" ++ r := rfl
    rw [h]
    rfl
  | skip =>
    refine ⟨newline pre indent depth ++ (lit "</testcase>" ++ r), ?_, ?_⟩
    · simp only [encodeStatus, List.append_assoc]
      rw [skipWs_append _ _ (newline_ws pre indent hpre hind (depth + 1))]
      have h : ∀ x, skipWs (lit "<skipped" ++ x) = lit "<skipped" ++ x := fun _ => rfl
      rw [h]
      unfold readStatus
      have hp : ∀ x, (lit "<skipped").isPrefixOf (lit "<skipped" ++ x) = true := fun x =>
        List.isPrefixOf_iff_prefix.mpr (List.prefix_append _ x)
      rw [hp]
      simp only [if_true]
      rw [expect_append]
      simp only []
      rw [readAttr_attr]
      simp only []
      rw [expect_append]
    · rw [skipWs_append _ _ (newline_ws pre indent hpre hind depth)]
      rfl
  | fail =>
    refine ⟨newline pre indent depth ++ (lit "</testcase>" ++ r), ?_, ?_⟩
    · simp only [encodeStatus, List.append_assoc]
      rw [skipWs_append _ _ (newline_ws pre indent hpre hind (depth + 1))]
      have h : ∀ x, skipWs (lit "<failure" ++ x) = lit "<failure" ++ x := fun _ => rfl
      rw [h]
      unfold readStatus
      have hn : ∀ x, (lit "<skipped").isPrefixOf (lit "<failure" ++ x) = false := fun _ => rfl
      have hp : ∀ x, (lit "<failure").isPrefixOf (lit "<failure" ++ x) = true := fun x =>
        List.isPrefixOf_iff_prefix.mpr (List.prefix_append _ x)
      rw [hn, hp]
      simp only [if_true, Bool.false_eq_true, if_false]
      rw [expect_append]
      simp only []
      rw [readAttr_attr]
      simp only []
      rw [readAttr_attr]
      simp only []
      rw [expect_append]
    · rw [skipWs_append _ _ (newline_ws pre indent hpre hind depth)]
      rfl

theorem readTestCase_encodeTestCase (pre indent : List Char)
    (hpre : ∀ c ∈ pre, isWs c = true) (hind : ∀ c ∈ indent, isWs c = true)
    (depth : Nat) (c : JUnitTestCase) (r : List Char) :
    readTestCase (encodeTestCase pre indent depth c ++ r) = some (xmlText c.Name, r) := by
  obtain ⟨cs, h1, h2⟩ := readStatus_encodeStatus pre indent hpre hind depth c.Status r
  unfold readTestCase encodeTestCase
  simp only [List.append_assoc] at h1 ⊢
  rw [expect_append]
  simp only []
  rw [readAttr_attr]
  simp only []
  rw [readAttr_attr]
  simp only []
  rw [readAttr_attr]
  simp only []
  rw [expect_append]
  simp only []
  rw [h1]
  simp only []
  rw [h2, expect_append]
  rfl


theorem isPrefixOf_append_self (p r : List Char) : p.isPrefixOf (p ++ r) = true :=
  List.isPrefixOf_iff_prefix.mpr (List.prefix_append p r)

theorem skipWs_closing (ws : List Char) (hws : ∀ c ∈ ws, isWs c = true) (tag : String)
    (r : List Char) (h : skipWs (lit tag ++ r) = lit tag ++ r) :
    skipWs (ws ++ (lit tag ++ r)) = lit tag ++ r := by
  rw [skipWs_append _ _ hws, h]

theorem readProperties_none (pre indent : List Char)
    (hpre : ∀ c ∈ pre, isWs c = true) (hind : ∀ c ∈ indent, isWs c = true)
    (depth : Nat) (cases : List JUnitTestCase) (tail r : List Char)
    (ht : skipWs tail = lit "</testsuite>" ++ r) :
    readProperties
        ((cases.map (fun c => newline pre indent (depth + 1)
            ++ encodeTestCase pre indent (depth + 1) c)).flatten ++ tail)
      = some ((cases.map (fun c => newline pre indent (depth + 1)
            ++ encodeTestCase pre indent (depth + 1) c)).flatten ++ tail) := by
  unfold readProperties
  cases cases with
  | nil =>
    simp only [List.map_nil, List.flatten_nil, List.nil_append, ht]
    have h : (lit "<properties>").isPrefixOf (lit "</testsuite>" ++ r) = false := rfl
    simp [h]
  | cons c cs =>
    simp only [List.map_cons, List.flatten_cons, List.append_assoc]
    rw [skipWs_append _ _ (newline_ws pre indent hpre hind (depth + 1))]
    simp only [encodeTestCase, List.append_assoc]
    have h1 : ∀ x, skipWs (lit "<testcase" ++ x) = lit "<testcase" ++ x := fun _ => rfl
    have h2 : ∀ x, (lit "<properties>").isPrefixOf (lit "<testcase" ++ x) = false :=
      fun _ => rfl
    rw [h1, h2]
    simp

theorem readProperties_some (pre indent : List Char)
    (hpre : ∀ c ∈ pre, isWs c = true) (hind : ∀ c ∈ indent, isWs c = true)
    (depth : Nat) (props : List JUnitProperty) (y : List Char) :
    readProperties
        (newline pre indent (depth + 1) ++ (lit "<properties>"
          ++ ((props.map
                (fun p => newline pre indent (depth + 2) ++ encodeProperty p)).flatten
          ++ (newline pre indent (depth + 1) ++ (lit "</properties>" ++ y)))))
      = some y := by
  unfold readProperties
  rw [skipWs_append _ _ (newline_ws pre indent hpre hind (depth + 1))]
  have h1 : ∀ x, skipWs (lit "<properties>" ++ x) = lit "<properties>" ++ x := fun _ => rfl
  rw [h1, isPrefixOf_append_self]
  simp only [if_true]
  rw [expect_append]
  simp only []
  rw [readAll_spec (lit "<property") readProperty encodeProperty (fun _ => ())
    (newline pre indent (depth + 2)) (newline_ws pre indent hpre hind (depth + 2))
    readProperty_encodeProperty
    (fun b r => by simp only [encodeProperty, List.append_assoc]; rfl)
    (fun b r => by
      simp only [encodeProperty, List.append_assoc]
      exact isPrefixOf_append_self _ _)
    (fun b => by
      simp only [encodeProperty, List.append_assoc]
      exact List.append_ne_nil_of_left_ne_nil (by decide) _)
    (newline pre indent (depth + 1) ++ (lit "</properties>" ++ y))
    (lit "</properties>" ++ y)
    (skipWs_closing _ (newline_ws pre indent hpre hind (depth + 1)) _ _ rfl)
    rfl]
  simp only []
  rw [expect_append]

theorem readTestCases_spec (pre indent : List Char)
    (hpre : ∀ c ∈ pre, isWs c = true) (hind : ∀ c ∈ indent, isWs c = true)
    (depth : Nat) (cases : List JUnitTestCase) (tail r : List Char)
    (ht : skipWs tail = lit "</testsuite>" ++ r) :
    readAll (lit "<testcase") readTestCase
        ((cases.map (fun c => newline pre indent (depth + 1)
            ++ encodeTestCase pre indent (depth + 1) c)).flatten ++ tail)
      = some (cases.map (fun c => xmlText c.Name), lit "</testsuite>" ++ r) :=
  readAll_spec (lit "<testcase") readTestCase (encodeTestCase pre indent (depth + 1))
    (fun c => xmlText c.Name) (newline pre indent (depth + 1))
    (newline_ws pre indent hpre hind (depth + 1))
    (readTestCase_encodeTestCase pre indent hpre hind (depth + 1))
    (fun b r => by simp only [encodeTestCase, List.append_assoc]; rfl)
    (fun b r => by
      simp only [encodeTestCase, List.append_assoc]
      exact isPrefixOf_append_self _ _)
    (fun b => by
      simp only [encodeTestCase, List.append_assoc]
      exact List.append_ne_nil_of_left_ne_nil (by decide) _)
    tail (lit "</testsuite>" ++ r) ht rfl cases

theorem readSuite_encodeSuite (pre indent : List Char)
    (hpre : ∀ c ∈ pre, isWs c = true) (hind : ∀ c ∈ indent, isWs c = true)
    (depth : Nat) (s : JUnitTestSuite) (r : List Char) :
    readSuite (encodeSuite pre indent depth s ++ r)
      = some ((xmlText s.Name, s.TestCases.map (fun c => xmlText c.Name)), r) := by
  unfold readSuite encodeSuite
  simp only [List.append_assoc]
  rw [expect_append]
  simp only []
  rw [readNatAttr_natAttr]
  simp only []
  rw [readNatAttr_natAttr]
  simp only []
  rw [readAttr_attr]
  simp only []
  rw [readAttr_attr]
  simp only []
  rw [readAttr_attr]
  simp only []
  rw [expect_append]
  simp only []
  by_cases hp : s.Properties = []
  · have ht : skipWs ((if s.Properties = [] ∧ s.TestCases = [] then []
          else newline pre indent depth) ++ (lit "</testsuite>" ++ r))
        = lit "</testsuite>" ++ r := by
      split
      · rfl
      · exact skipWs_closing _ (newline_ws pre indent hpre hind depth) _ _ rfl
    simp only [hp, if_true, List.nil_append] at ht ⊢
    rw [readProperties_none pre indent hpre hind depth s.TestCases _ r ht]
    simp only []
    rw [readTestCases_spec pre indent hpre hind depth s.TestCases _ r ht]
    simp only []
    rw [expect_append]
    rfl
  · have ht : skipWs (newline pre indent depth ++ (lit "</testsuite>" ++ r))
        = lit "</testsuite>" ++ r :=
      skipWs_closing _ (newline_ws pre indent hpre hind depth) _ _ rfl
    simp only [hp, if_false, false_and, List.append_assoc]
    rw [readProperties_some pre indent hpre hind depth]
    simp only []
    rw [readTestCases_spec pre indent hpre hind depth s.TestCases _ r ht]
    simp only []
    rw [expect_append]
    rfl


theorem readSuites_encodeSuites (pre indent : List Char)
    (hpre : ∀ c ∈ pre, isWs c = true) (hind : ∀ c ∈ indent, isWs c = true)
    (d : JUnitTestSuites) :
    readSuites (encodeSuites pre indent d)
      = some
          { Tests := d.Tests
            Failures := d.Failures
            Errors := d.Errors
            Packages := d.Suites.map (fun s => xmlText s.Name)
            TestNames :=
              (d.Suites.map (fun s => s.TestCases.map (fun c => xmlText c.Name))).flatten } := by
  unfold readSuites encodeSuites
  simp only [List.append_assoc]
  rw [skipWs_append _ _ hpre]
  have h1 : ∀ x, skipWs (lit "<testsuites" ++ x) = lit "<testsuites" ++ x := fun _ => rfl
  rw [h1, expect_append]
  simp only []
  have hname : ∀ x, readOptionalName
      ((if d.Name = "" then [] else attr " name=\"" d.Name) ++ (natAttr " tests=\"" d.Tests ++ x))
        = some (natAttr " tests=\"" d.Tests ++ x) := by
    intro x
    unfold readOptionalName
    split
    · simp only [List.nil_append, natAttr, List.append_assoc]
      have h2 : ∀ y, (lit " name=\"").isPrefixOf (lit " tests=\"" ++ y) = false := fun _ => rfl
      rw [h2]
      simp
    · have h3 : (lit " name=\"").isPrefixOf
          (attr " name=\"" d.Name ++ (natAttr " tests=\"" d.Tests ++ x)) = true := by
        simp only [attr, List.append_assoc]
        exact isPrefixOf_append_self _ _
      rw [h3]
      simp only [if_true]
      rw [readAttr_attr]
      rfl
  rw [hname]
  simp only []
  rw [readNatAttr_natAttr]
  simp only []
  rw [readNatAttr_natAttr]
  simp only []
  rw [readNatAttr_natAttr]
  simp only []
  rw [readAttr_attr]
  simp only []
  rw [expect_append]
  simp only []
  have ht : skipWs ((if d.Suites = [] then [] else newline pre indent 0)
      ++ lit "</testsuites>") = lit "</testsuites>" := by
    split
    · rfl
    · rw [skipWs_append _ _ (newline_ws pre indent hpre hind 0)]
      rfl
  rw [readAll_spec (lit "<testsuite") readSuite (encodeSuite pre indent 1)
    (fun s => (xmlText s.Name, s.TestCases.map (fun c => xmlText c.Name)))
    (newline pre indent 1) (newline_ws pre indent hpre hind 1)
    (readSuite_encodeSuite pre indent hpre hind 1)
    (fun b r => by simp only [encodeSuite, List.append_assoc]; rfl)
    (fun b r => by
      simp only [encodeSuite, List.append_assoc]
      exact isPrefixOf_append_self _ _)
    (fun b => by
      simp only [encodeSuite, List.append_assoc]
      exact List.append_ne_nil_of_left_ne_nil (by decide) _)
    _ (lit "</testsuites>") ht (by decide)]
  simp only []
  have he : expect (lit "</testsuites>") (lit "</testsuites>") = some [] := by decide
  rw [he]
  simp [List.map_map, Function.comp_def]

theorem parseReport_emitted (deps : Deps) (now : Time) (exec : testjson.Execution)
    (cfg : Config) :
    parseReport (emitted xmlMarshalIndent deps now exec cfg)
      = some
          { Tests := (generate deps now exec cfg).Tests
            Failures := (generate deps now exec cfg).Failures
            Errors := (generate deps now exec cfg).Errors
            Packages := (generate deps now exec cfg).Suites.map (fun s => xmlText s.Name)
            TestNames :=
              ((generate deps now exec cfg).Suites.map
                (fun s => s.TestCases.map (fun c => xmlText c.Name))).flatten } := by
  rw [emitted_eq xmlMarshalIndent deps now exec cfg _ rfl]
  unfold parseReport
  have h : (xmlHeader ++ String.mk
        (encodeSuites "".toList "\t".toList (generate deps now exec cfg))).toList
      = lit xmlHeader ++ encodeSuites [] ['\t'] (generate deps now exec cfg) := by
    simp [String.toList, lit]
  rw [h, expect_append]
  simp only []
  exact readSuites_encodeSuites [] ['\t'] (by simp) (by decide) _

theorem xmlText_of_xmlSafe (s : String) (h : xmlSafe s = true) : xmlText s = s := by
  unfold xmlSafe at h
  rw [List.all_eq_true] at h
  have hm : s.toList.map xmlChar = s.toList := by
    conv_rhs => rw [← List.map_id s.toList]
    apply List.map_congr_left
    intro c hc
    simp [xmlChar, h c hc]
  unfold xmlText
  rw [hm]
  rfl


theorem emitted_control_characters :
    emitted xmlMarshalIndent exampleDeps 0 (execWithTest (Char.ofNat 1)) plainConfig
      = emitted xmlMarshalIndent exampleDeps 0 (execWithTest (Char.ofNat 2)) plainConfig := by
  set_option maxRecDepth 100000 in
  decide

/-- C8, as stated, fails. For every encoder and parser: under a configuration
whose formatting rule names every suite alike, two summaries that differ in the
name of their package give the same report, hence the same bytes, and no parser
gets both package names back; and with the filter on, a summary with one
package without tests gives the same bytes as the summary without packages.
For the XML encoding and every parser: two summaries whose test names are two
different control characters give the same bytes. -/
theorem round_trip_loses_package_names :
    (¬ ∃ (marshal : JUnitTestSuites → String → String → Except GoError String)
        (parse : String → Option Parsed), RoundTrip marshal parse)
      ∧ (¬ ∃ (marshal : JUnitTestSuites → String → String → Except GoError String)
          (parse : String → Option Parsed), RoundTripUnder marshal parse exampleConfig)
      ∧ (¬ ∃ parse : String → Option Parsed,
          RoundTripUnder xmlMarshalIndent parse plainConfig) := by
  refine ⟨?_, ?_, ?_⟩
  · rintro ⟨marshal, parse, h⟩
    have hA := h exampleDeps 0 execA constConfig
    have hB := h exampleDeps 0 execB constConfig
    have hg : generate exampleDeps 0 execA constConfig
        = generate exampleDeps 0 execB constConfig := by decide
    have he : emitted marshal exampleDeps 0 execA constConfig
        = emitted marshal exampleDeps 0 execB constConfig := by
      simp only [emitted, Write, hg]
    rw [he, hB] at hA
    have hp := congrArg Parsed.Packages (Option.some.inj hA)
    revert hp
    decide
  · rintro ⟨marshal, parse, h⟩
    have hA := h exampleDeps 0 execA
    have hB := h exampleDeps 0 emptyExec
    have hg : generate exampleDeps 0 execA exampleConfig
        = generate exampleDeps 0 emptyExec exampleConfig := by decide
    have he : emitted marshal exampleDeps 0 execA exampleConfig
        = emitted marshal exampleDeps 0 emptyExec exampleConfig := by
      simp only [emitted, Write, hg]
    rw [he, hB] at hA
    have hp := congrArg Parsed.Packages (Option.some.inj hA)
    revert hp
    decide
  · rintro ⟨parse, h⟩
    have hA := h exampleDeps 0 (execWithTest (Char.ofNat 1))
    have hB := h exampleDeps 0 (execWithTest (Char.ofNat 2))
    rw [emitted_control_characters, hB] at hA
    have hp := congrArg Parsed.TestNames (Option.some.inj hA)
    revert hp
    decide

/-- C8, amended: parsing what `Write` emitted gives the test, failure and error
counts of the summary, the test names of the summary, and as suite names
`cfg.FormatTestSuiteName` of the names of the packages that are not hidden, in
order, each name with the characters XML does not allow replaced by U+FFFD.
These are the package and test names of the summary itself when the formatting
rule leaves the package names as they are, the filter is off and the names hold
only characters XML allows. -/
theorem Write_round_trip (deps : Deps) (now : Time) (exec : testjson.Execution)
    (cfg : Config) :
    parseReport (emitted xmlMarshalIndent deps now exec cfg)
        = some
            { Tests := exec.Total
              Failures := exec.Failed.length
              Errors := exec.Errors.length
              Packages :=
                (keptPackages exec cfg).map (fun n => xmlText (cfg.FormatTestSuiteName n))
              TestNames := exec.TestNames.map xmlText }
      ∧ ((∀ n ∈ exec.Packages, cfg.FormatTestSuiteName n = n ∧ xmlSafe n = true) →
          cfg.HideEmptyPackages = false →
          (∀ t ∈ exec.TestNames, xmlSafe t = true) →
          parseReport (emitted xmlMarshalIndent deps now exec cfg)
            = some (summaryOf exec)) := by
  have hmain : parseReport (emitted xmlMarshalIndent deps now exec cfg)
      = some
          { Tests := exec.Total
            Failures := exec.Failed.length
            Errors := exec.Errors.length
            Packages :=
              (keptPackages exec cfg).map (fun n => xmlText (cfg.FormatTestSuiteName n))
            TestNames := exec.TestNames.map xmlText } := by
    rw [parseReport_emitted]
    have h1 : (generate deps now exec cfg).Tests = exec.Total := by
      rw [generate_eq]
      exact generateInit_Tests now exec cfg
    have h2 : (generate deps now exec cfg).Failures = exec.Failed.length := by
      rw [generate_eq]
      exact generateInit_Failures now exec cfg
    have h3 : (generate deps now exec cfg).Errors = exec.Errors.length := by
      rw [generate_eq]
      exact generateInit_Errors now exec cfg
    have h4 : (generate deps now exec cfg).Suites.map (fun s => xmlText s.Name)
        = (keptPackages exec cfg).map (fun n => xmlText (cfg.FormatTestSuiteName n)) := by
      rw [generate_Suites, List.map_map]
      apply List.map_congr_left
      intro n _
      simp [junitpkg_Name]
    have h5 : ((generate deps now exec cfg).Suites.map
          (fun s => s.TestCases.map (fun c => xmlText c.Name))).flatten
        = exec.TestNames.map xmlText := by
      rw [← generate_testNames deps now exec cfg, List.map_flatten, List.map_map]
      congr 1
      apply List.map_congr_left
      intro s _
      simp [Function.comp_def]
    rw [h1, h2, h3, h4, h5]
  refine ⟨hmain, ?_⟩
  intro hn hh ht
  rw [hmain]
  have hk : keptPackages exec cfg = exec.Packages := by
    simp [keptPackages, hh]
  have hp : (keptPackages exec cfg).map (fun n => xmlText (cfg.FormatTestSuiteName n))
      = exec.Packages := by
    rw [hk]
    conv_rhs => rw [← List.map_id exec.Packages]
    apply List.map_congr_left
    intro n hmem
    rw [(hn n hmem).1, xmlText_of_xmlSafe n (hn n hmem).2]
    rfl
  have hq : exec.TestNames.map xmlText = exec.TestNames := by
    conv_rhs => rw [← List.map_id exec.TestNames]
    apply List.map_congr_left
    intro t hmem
    rw [xmlText_of_xmlSafe t (ht t hmem)]
    rfl
  rw [hp, hq]
  rfl

/-- Witness of C8, amended: for `exampleExec` under `plainConfig` the counts
and names read back are those of the summary. -/
theorem Write_round_trip_witness :
    parseReport (emitted xmlMarshalIndent exampleDeps 7 exampleExec plainConfig)
      = some
          { Tests := 2
            Failures := 1
            Errors := 1
            Packages := ["pkg/a", "pkg/b"]
            TestNames := ["TestOne", "TestTwo"] } :=
  (Write_round_trip exampleDeps 7 exampleExec plainConfig).2
    (by decide) (by decide) (by decide)


/-! ## The coverage defaults -/

/-- C9: the record `cobcov` that `generate` builds has its rates, its
complexity and its four line and branch counts at zero, and is not what
`generate` returns: at the summary without packages the value returned is the
suite collection with the project name, zero counts and the elapsed time. -/
theorem generate_returns_suites_not_cobcov :
    (cobcov.LineRate = 0 ∧ cobcov.BranchRate = 0 ∧ cobcov.Complexity = 0
        ∧ cobcov.LinesCovered = 0 ∧ cobcov.LinesValid = 0
        ∧ cobcov.BranchesCovered = 0 ∧ cobcov.BranchesValid = 0)
      ∧ generate exampleDeps 7 emptyExec exampleConfig
          = { Name := "proj", Tests := 0, Failures := 0, Errors := 0,
              Time := "0.000000", Suites := [] } := by
  refine ⟨⟨rfl, rfl, rfl, rfl, rfl, rfl, rfl⟩, ?_⟩
  decide

end Coberturaxml
